import Mathlib

/-!
Verification of the export-instance path filtering core of
`src/launcher/ui/dialogs/ExportInstanceDialog.cpp`.

Strings (`QString`) are embedded as lists of characters; the external
collaborators (save-file picker, zip writer, filesystem) are embedded as an
explicit environment record, and the dialog's observable side effects as an
event trace.  The `SeparatorPrefixTree` / `FileIgnoreProxy` collaborators are
declared in headers that are not part of the sources; their definitions here
are modelled from the specification and are marked as such.
-/

/-- A `QString` value, embedded as its list of characters. -/
abbrev QStr := List Char

/-- Build a `QStr` from a Lean string literal. -/
def qstr (s : String) : QStr := s.data

/-- `QString::split(sep, Qt::SkipEmptyParts)` post-processing: drop the empty
parts of a raw split. -/
def skipEmptyParts (parts : List QStr) : List QStr :=
  parts.filter (fun part => decide (part ≠ []))

/-- Modelled from the spec: `SeparatorPrefixTree<'/'>` (its header is not under
`src/`; only the caller `ExportInstanceDialog.cpp` is).  Observable state is
the ordered list of terminal segment-paths: per §3 a node is terminal iff its
full path was explicitly inserted, and per §4.1 (recommended policy) insertion
is skipped when an ancestor is already terminal, keeping the tree minimal. -/
structure SeparatorPrefixTree where
  blocked : List (List QStr)
deriving DecidableEq

/-- The empty prefix tree: nothing is covered. -/
def SeparatorPrefixTree.empty : SeparatorPrefixTree := ⟨[]⟩

/-- Modelled from the spec (§4.1): split a path on the separator `'/'`,
silently collapsing empty segments (tolerating e.g. trailing separators). -/
def splitSegs (path : QStr) : List QStr :=
  skipEmptyParts (path.splitOn '/')

/-- Modelled from the spec (§4.1): `covers(path)` is true iff `path` equals a
terminal node's path or descends from one, i.e. some terminal segment-path is
an initial run of `path`'s segments. -/
def SeparatorPrefixTree.covers (t : SeparatorPrefixTree) (path : QStr) : Bool :=
  t.blocked.any (fun b => decide (b <+: splitSegs path))

/-- Modelled from the spec (§4.1): `insert(path)` walks the segments and marks
the final node terminal; it is a no-op when an ancestor (or the exact path) is
already terminal, and ignores paths that collapse to no segments. -/
def SeparatorPrefixTree.insert (t : SeparatorPrefixTree) (path : QStr) : SeparatorPrefixTree :=
  if splitSegs path = [] then t
  else if t.blocked.any (fun b => decide (b <+: splitSegs path)) then t
  else ⟨t.blocked ++ [splitSegs path]⟩

/-- Modelled from the spec (§4.1): `coveredPaths()` rendered as strings, one
per terminal node, joining segments with the separator (the
`toStringList()` call of `savePackIgnore`). -/
def SeparatorPrefixTree.toStringList (t : SeparatorPrefixTree) : List QStr :=
  t.blocked.map (fun b => List.intercalate ['/'] b)

/-- Modelled from the spec (§4.2): `FileIgnoreProxy::setBlockedPaths` clears
the tree and re-inserts each given string (the previous tree is discarded). -/
def FileIgnoreProxy.setBlockedPaths (_t : SeparatorPrefixTree) (paths : List QStr) :
    SeparatorPrefixTree :=
  paths.foldl SeparatorPrefixTree.insert SeparatorPrefixTree.empty

/-- Well-formedness of a tree state, as produced by `insert` on real paths:
every terminal segment-path is non-empty, every segment is non-empty and free
of the separator and of the newline record delimiter, and no terminal path is
an initial run of a later one (insertion would have skipped the later one). -/
def SeparatorPrefixTree.WF (t : SeparatorPrefixTree) : Prop :=
  (∀ b ∈ t.blocked, b ≠ [] ∧ ∀ seg ∈ b, seg ≠ [] ∧ '/' ∉ seg ∧ '\n' ∉ seg) ∧
  t.blocked.Pairwise (fun x y => ¬ x <+: y)

instance (t : SeparatorPrefixTree) : Decidable t.WF := by
  unfold SeparatorPrefixTree.WF
  infer_instance

-- Observable side effects of the dialog, in program order.

/-- One observable side effect of the dialog code. -/
inductive Event where
  /-- `QFileDialog::getSaveFileName` was invoked. -/
  | pickerShown : Event
  /-- `SaveIcon(m_instance)` was invoked. -/
  | iconSaved : Event
  /-- `MMCZip::compressDirFiles` was handed this file list. -/
  | compressAttempt : List QStr → Event
  /-- `QMessageBox::warning` surfaced an error to the user. -/
  | warnShown : Event
  /-- `FS::write` of the `.packignore` file was attempted with this content;
  the flag records whether it succeeded. -/
  | fsWrite : QStr → Bool → Event
  /-- `qWarning()` logged a warning. -/
  | warnLogged : Event
  /-- `QDialog::done(result)` completed the dialog. -/
  | dialogDone : Int → Event
deriving DecidableEq

/-- Behavior of the external collaborators during one dialog run. -/
structure Env where
  /-- Result of the save-file picker; `[]` is the cancelled/empty answer. -/
  pickerOutput : QStr
  /-- Modelled from the spec (§6): `MMCZip::collectFileListRecursively` (not
  under `src/`) enumerates the instance tree; `none` is enumeration failure,
  `some allPaths` the enumerated paths before ignore filtering. -/
  enumerated : Option (List QStr)
  /-- Whether `MMCZip::compressDirFiles` succeeds. -/
  compressOk : Bool
  /-- Whether `FS::write` succeeds (it throws `Exception` otherwise). -/
  writeOk : Bool
deriving DecidableEq

/-- `QDialog::Accepted`. -/
def qdialogAccepted : Int := 1

/-- `QDialog::Rejected`. -/
def qdialogRejected : Int := 0

/-- Result of `ExportInstanceDialog::doExport`: the returned `bool`, the
tree state after the call, and the emitted side effects in order. -/
structure DoExportResult where
  ok : Bool
  tree : SeparatorPrefixTree
  events : List Event
deriving DecidableEq

/-- `ExportInstanceDialog::doExport`: ask the picker for an output path and
return `false` at once if it is empty; otherwise save the icon, enumerate the
instance files filtered by `covers` (modelled from the spec: the collector
keeps exactly the paths the blocked tree does not cover), and compress them,
warning once and returning `false` on either failure. -/
def ExportInstanceDialog.doExport (t : SeparatorPrefixTree) (env : Env) : DoExportResult :=
  if env.pickerOutput = [] then
    ⟨false, t, [.pickerShown]⟩
  else
    match env.enumerated with
    | none => ⟨false, t, [.pickerShown, .iconSaved, .warnShown]⟩
    | some allPaths =>
      if env.compressOk then
        ⟨true, t, [.pickerShown, .iconSaved,
                   .compressAttempt (allPaths.filter (fun p => !(t.covers p)))]⟩
      else
        ⟨false, t, [.pickerShown, .iconSaved,
                    .compressAttempt (allPaths.filter (fun p => !(t.covers p))), .warnShown]⟩

/-- Content written to `.packignore`: `blockedPaths().toStringList().join('\n')`. -/
def renderIgnore (t : SeparatorPrefixTree) : QStr :=
  List.intercalate ['\n'] t.toStringList

/-- `ExportInstanceDialog::savePackIgnore`: attempt `FS::write` of the joined
blocked paths; a thrown `Exception` is caught and logged with `qWarning`,
and the function returns normally either way. -/
def ExportInstanceDialog.savePackIgnore (t : SeparatorPrefixTree) (env : Env) : List Event :=
  if env.writeOk then [.fsWrite (renderIgnore t) true]
  else [.fsWrite (renderIgnore t) false, .warnLogged]

/-- Result of `ExportInstanceDialog::done`: final tree state and side effects. -/
structure DoneResult where
  tree : SeparatorPrefixTree
  events : List Event
deriving DecidableEq

/-- `ExportInstanceDialog::done(result)`: always save the pack ignore file
first; on `Accepted`, run the export and complete with `Accepted` only if it
succeeded (staying open otherwise); on any other result complete with it. -/
def ExportInstanceDialog.done (result : Int) (t : SeparatorPrefixTree) (env : Env) :
    DoneResult :=
  if result = qdialogAccepted then
    if (ExportInstanceDialog.doExport t env).ok then
      ⟨(ExportInstanceDialog.doExport t env).tree,
       ExportInstanceDialog.savePackIgnore t env ++
         (ExportInstanceDialog.doExport t env).events ++ [.dialogDone qdialogAccepted]⟩
    else
      ⟨(ExportInstanceDialog.doExport t env).tree,
       ExportInstanceDialog.savePackIgnore t env ++ (ExportInstanceDialog.doExport t env).events⟩
  else ⟨t, ExportInstanceDialog.savePackIgnore t env ++ [.dialogDone result]⟩

/-- Result of `ExportInstanceDialog::loadPackIgnore`: the tree state after the
call, the argument lists of the `setBlockedPaths` calls made, and how many
errors were surfaced to the user. -/
structure LoadResult where
  tree : SeparatorPrefixTree
  setBlockedCalls : List (List QStr)
  errorsSurfaced : Nat
deriving DecidableEq

/-- `ExportInstanceDialog::loadPackIgnore`: when the ignore file cannot be
opened (`none`) return at once; otherwise split its content on `'\n'` with
`Qt::SkipEmptyParts` and hand the lines to `setBlockedPaths`. -/
def ExportInstanceDialog.loadPackIgnore (t : SeparatorPrefixTree) (file : Option QStr) :
    LoadResult :=
  match file with
  | none => ⟨t, [], 0⟩
  | some data =>
    ⟨FileIgnoreProxy.setBlockedPaths t (skipEmptyParts (data.splitOn '\n')),
     [skipEmptyParts (data.splitOn '\n')], 0⟩

/-- Save-then-load round trip of the tree state: the content written by
`savePackIgnore` fed back through `loadPackIgnore`. -/
def packIgnoreRoundTrip (t : SeparatorPrefixTree) : SeparatorPrefixTree :=
  (ExportInstanceDialog.loadPackIgnore t (some (renderIgnore t))).tree

/-- `ExportInstanceDialog::rowsInserted(parent, top, bottom)`: the rows the
handler expands, given which rows `FileIgnoreProxy::shouldExpand` approves
(modelled as a predicate on the row index, its header not being under `src/`)
and whether the node's parent index is valid.  The loop is
`for (int i = top; i < bottom; i++)`. -/
def ExportInstanceDialog.rowsInserted (shouldExpand : Int → Bool) (parentValid : Bool)
    (top bottom : Int) : List Int :=
  ((List.range (bottom - top).toNat).map (fun k => top + (k : Int))).filter
    (fun i => shouldExpand i && parentValid)

/-- The rows of a `rowsInserted(parent, top, bottom)` batch according to the
claim (and the Qt convention): every row from `top` to `bottom` inclusive.
Follows the claim's words, for comparison with the code's loop. -/
def claimBatchRows (top bottom : Int) : List Int :=
  (List.range (bottom - top + 1).toNat).map (fun k => top + (k : Int))

-- Helper lemmas about the embedded operations.

theorem skipEmptyParts_eq_self {L : List QStr} (h : ∀ l ∈ L, l ≠ []) :
    skipEmptyParts L = L := by
  apply List.filter_eq_self.mpr
  intro a ha
  simpa using h a ha

theorem covers_iff (t : SeparatorPrefixTree) (p : QStr) :
    t.covers p = true ↔ ∃ b ∈ t.blocked, b <+: splitSegs p := by
  simp [SeparatorPrefixTree.covers]

theorem intercalate_cons_cons (s a b : QStr) (L : List QStr) :
    List.intercalate s (a :: b :: L) = a ++ s ++ List.intercalate s (b :: L) := by
  simp [List.intercalate, List.intersperse]

theorem intercalate_single (s a : QStr) : List.intercalate s [a] = a := by
  simp [List.intercalate, List.intersperse]

theorem intercalate_ne_nil {c : Char} {b : List QStr} (hb : b ≠ [])
    (hs : ∀ s ∈ b, s ≠ []) : List.intercalate [c] b ≠ [] := by
  match b, hb with
  | [a], _ =>
    rw [intercalate_single]
    exact hs a (by simp)
  | a :: b' :: L, _ =>
    rw [intercalate_cons_cons]
    simp [List.append_eq_nil]

theorem mem_intercalate_sep {c x : Char} {L : List QStr}
    (h : c ∈ List.intercalate [x] L) : c = x ∨ ∃ l ∈ L, c ∈ l := by
  induction L with
  | nil => simp [List.intercalate, List.intersperse] at h
  | cons a L ih =>
    cases L with
    | nil =>
      rw [intercalate_single] at h
      exact Or.inr ⟨a, by simp, h⟩
    | cons b L' =>
      rw [intercalate_cons_cons] at h
      rcases List.mem_append.mp h with h1 | h2
      · rcases List.mem_append.mp h1 with ha | hx
        · exact Or.inr ⟨a, by simp, ha⟩
        · simp at hx
          exact Or.inl hx
      · rcases ih h2 with hcx | ⟨l, hl, hcl⟩
        · exact Or.inl hcx
        · exact Or.inr ⟨l, by simp [hl], hcl⟩

theorem splitSegs_intercalate {b : List QStr} (hb : b ≠ [])
    (hs : ∀ s ∈ b, s ≠ [] ∧ '/' ∉ s) :
    splitSegs (List.intercalate ['/'] b) = b := by
  unfold splitSegs
  rw [show (List.intercalate ['/'] b).splitOn '/' = b from
        List.splitOn_intercalate b '/' (fun l hl => (hs l hl).2) hb]
  exact skipEmptyParts_eq_self (fun l hl => (hs l hl).1)

theorem insert_keeps (t : SeparatorPrefixTree) (P : QStr) {b : List QStr}
    (hb : b ∈ t.blocked) : b ∈ (t.insert P).blocked := by
  unfold SeparatorPrefixTree.insert
  split
  · exact hb
  · split
    · exact hb
    · exact List.mem_append_left _ hb

theorem insert_coverage (t : SeparatorPrefixTree) (P : QStr) (hP : splitSegs P ≠ []) :
    ∃ b ∈ (t.insert P).blocked, b <+: splitSegs P := by
  unfold SeparatorPrefixTree.insert
  rw [if_neg hP]
  by_cases hcov : t.blocked.any (fun b => decide (b <+: splitSegs P)) = true
  · rw [if_pos hcov]
    obtain ⟨b, hb, hpre⟩ := List.any_eq_true.mp hcov
    exact ⟨b, hb, of_decide_eq_true hpre⟩
  · rw [if_neg hcov]
    exact ⟨splitSegs P, by simp, List.prefix_refl _⟩

theorem foldl_insert_rendered (bs : List (List QStr)) :
    ∀ acc : List (List QStr),
      (∀ b ∈ bs, b ≠ [] ∧ ∀ s ∈ b, s ≠ [] ∧ '/' ∉ s) →
      bs.Pairwise (fun x y => ¬ x <+: y) →
      (∀ a ∈ acc, ∀ b ∈ bs, ¬ a <+: b) →
      List.foldl SeparatorPrefixTree.insert ⟨acc⟩
        (bs.map (fun b => List.intercalate ['/'] b)) = ⟨acc ++ bs⟩ := by
  induction bs with
  | nil =>
    intro acc _ _ _
    simp
  | cons b bs ih =>
    intro acc hwf hpair hacc
    obtain ⟨hb_bs, hpair'⟩ := List.pairwise_cons.mp hpair
    have hbwf := hwf b (by simp)
    have hsegs : splitSegs (List.intercalate ['/'] b) = b :=
      splitSegs_intercalate hbwf.1 (fun s hs => hbwf.2 s hs)
    have hins : SeparatorPrefixTree.insert ⟨acc⟩ (List.intercalate ['/'] b) = ⟨acc ++ [b]⟩ := by
      unfold SeparatorPrefixTree.insert
      rw [hsegs, if_neg hbwf.1]
      have hany : ¬ ((SeparatorPrefixTree.mk acc).blocked.any
          (fun x => decide (x <+: b)) = true) := by
        simp only [List.any_eq_true, decide_eq_true_eq]
        rintro ⟨a, ha, hab⟩
        exact hacc a ha b (by simp) hab
      rw [if_neg hany]
    rw [List.map_cons, List.foldl_cons, hins,
      ih (acc ++ [b]) (fun b' hb' => hwf b' (by simp [hb'])) hpair'
        (by
          intro a ha b' hb'
          rcases List.mem_append.mp ha with h1 | h2
          · exact hacc a h1 b' (by simp [hb'])
          · rw [List.mem_singleton.mp h2]
            exact hb_bs b' hb')]
    simp

theorem roundTrip_eq_of_wf (t : SeparatorPrefixTree) (h : t.WF) :
    packIgnoreRoundTrip t = t := by
  obtain ⟨hwf, hpair⟩ := h
  unfold packIgnoreRoundTrip ExportInstanceDialog.loadPackIgnore
  by_cases hb : t.blocked = []
  · have h1 : renderIgnore t = [] := by
      simp [renderIgnore, SeparatorPrefixTree.toStringList, hb, List.intercalate,
        List.intersperse]
    rw [h1]
    show FileIgnoreProxy.setBlockedPaths t (skipEmptyParts (List.splitOn '\n' [])) = t
    rw [List.splitOn_nil]
    show List.foldl SeparatorPrefixTree.insert SeparatorPrefixTree.empty [] = t
    cases t
    simp_all [SeparatorPrefixTree.empty]
  · have hts : t.toStringList ≠ [] := by
      simp only [SeparatorPrefixTree.toStringList]
      intro hmap
      exact hb (List.map_eq_nil_iff.mp hmap)
    have hnl : ∀ l ∈ t.toStringList, '\n' ∉ l := by
      intro l hl hc
      simp only [SeparatorPrefixTree.toStringList, List.mem_map] at hl
      obtain ⟨b, hbmem, rfl⟩ := hl
      rcases mem_intercalate_sep hc with h1 | ⟨s, hs, hcs⟩
      · exact absurd h1 (by decide)
      · exact (((hwf b hbmem).2 s hs).2.2) hcs
    have hne : ∀ l ∈ t.toStringList, l ≠ [] := by
      intro l hl
      simp only [SeparatorPrefixTree.toStringList, List.mem_map] at hl
      obtain ⟨b, hbmem, rfl⟩ := hl
      exact intercalate_ne_nil (hwf b hbmem).1 (fun s hs => ((hwf b hbmem).2 s hs).1)
    have hsplit : List.splitOn '\n' (renderIgnore t) = t.toStringList :=
      List.splitOn_intercalate _ '\n' hnl hts
    show FileIgnoreProxy.setBlockedPaths t
        (skipEmptyParts (List.splitOn '\n' (renderIgnore t))) = t
    rw [hsplit, skipEmptyParts_eq_self hne]
    show List.foldl SeparatorPrefixTree.insert SeparatorPrefixTree.empty
        (t.blocked.map (fun b => List.intercalate ['/'] b)) = t
    have := foldl_insert_rendered t.blocked []
      (fun b hbm => ⟨(hwf b hbm).1, fun s hs => ⟨((hwf b hbm).2 s hs).1,
        ((hwf b hbm).2 s hs).2.1⟩⟩)
      hpair (by simp)
    rw [show SeparatorPrefixTree.empty = SeparatorPrefixTree.mk [] from rfl, this]
    simp

theorem pickerShown_mem_doExport (t : SeparatorPrefixTree) (env : Env) :
    Event.pickerShown ∈ (ExportInstanceDialog.doExport t env).events := by
  unfold ExportInstanceDialog.doExport
  split
  · simp
  · split
    · simp
    · split <;> simp

-- Claim theorems.

/-- C1: at export time the file list handed to the archive writer is exactly
the subsequence of the enumerated paths for which `covers` is false: it is a
sublist of the enumeration (order preserved), every covered path is excluded
and every non-covered path is kept. -/
theorem C1_filter_for_export (t : SeparatorPrefixTree) (env : Env) (allPaths : List QStr)
    (hpick : env.pickerOutput ≠ []) (henum : env.enumerated = some allPaths) :
    Event.compressAttempt (allPaths.filter (fun p => !(t.covers p))) ∈
      (ExportInstanceDialog.doExport t env).events ∧
    (allPaths.filter (fun p => !(t.covers p))).Sublist allPaths ∧
    ∀ p, p ∈ allPaths.filter (fun p => !(t.covers p)) ↔ p ∈ allPaths ∧ t.covers p = false := by
  refine ⟨?_, List.filter_sublist _, ?_⟩
  · unfold ExportInstanceDialog.doExport
    rw [if_neg hpick, henum]
    split <;> simp_all
    split <;> simp
  · intro p
    simp [List.mem_filter]

/-- C1 witness: a concrete export with blocked prefix `"build"`. -/
theorem C1_filter_for_export_witness :
    Event.compressAttempt ([qstr "a", qstr "build/x"].filter
        (fun p => !((SeparatorPrefixTree.empty.insert (qstr "build")).covers p))) ∈
      (ExportInstanceDialog.doExport (SeparatorPrefixTree.empty.insert (qstr "build"))
        ⟨qstr "out.zip", some [qstr "a", qstr "build/x"], true, true⟩).events :=
  (C1_filter_for_export (SeparatorPrefixTree.empty.insert (qstr "build"))
    ⟨qstr "out.zip", some [qstr "a", qstr "build/x"], true, true⟩
    [qstr "a", qstr "build/x"] (by decide) rfl).1

/-- C2: the `rowsInserted` loop `for (int i = top; i < bottom; i++)` never
visits the last row `bottom` of a batch: a single-row batch (`top = bottom`)
is skipped entirely, and of a batch of rows 2..5 only 2, 3, 4 are visited,
while the claim (and the Qt `rowsInserted` convention, whose `last` argument
is inclusive) requires every row from `top` to `bottom`. -/
theorem C2_rowsInserted_off_by_one :
    ExportInstanceDialog.rowsInserted (fun _ => true) true 0 0 = [] ∧
    claimBatchRows 0 0 = [0] ∧
    ExportInstanceDialog.rowsInserted (fun _ => true) true 2 5 = [2, 3, 4] ∧
    claimBatchRows 2 5 = [2, 3, 4, 5] := by
  decide

/-- C4: after inserting a path `P` with at least one segment, `covers P` holds
and `covers Q` holds for every `Q` whose segment sequence extends `P`'s; and
coverage respects segment boundaries: inserting `"build"` covers
`"build/out/x.txt"` but not `"buildx"`. -/
theorem C4_insert_covers (t : SeparatorPrefixTree) (P : QStr) (hP : splitSegs P ≠ []) :
    ((t.insert P).covers P = true ∧
      ∀ Q : QStr, splitSegs P <+: splitSegs Q → (t.insert P).covers Q = true) ∧
    ((SeparatorPrefixTree.empty.insert (qstr "build")).covers (qstr "build/out/x.txt") = true ∧
      (SeparatorPrefixTree.empty.insert (qstr "build")).covers (qstr "buildx") = false) := by
  refine ⟨⟨?_, ?_⟩, by decide, by decide⟩
  · rw [covers_iff]
    exact insert_coverage t P hP
  · intro Q hQ
    rw [covers_iff]
    obtain ⟨b, hbmem, hbpre⟩ := insert_coverage t P hP
    exact ⟨b, hbmem, hbpre.trans hQ⟩

/-- C4 witness: the inserted path `"build"` itself is covered. -/
theorem C4_insert_covers_witness :
    (SeparatorPrefixTree.empty.insert (qstr "build")).covers (qstr "build") = true :=
  ((C4_insert_covers SeparatorPrefixTree.empty (qstr "build") (by decide)).1).1

/-- C5: when the ignore file cannot be opened, `loadPackIgnore` returns at
once: no error is surfaced, `setBlockedPaths` is never called, and the tree is
left as it was — for the freshly constructed proxy, the empty ignore set. -/
theorem C5_load_missing_file (t : SeparatorPrefixTree) :
    (ExportInstanceDialog.loadPackIgnore t none).tree = t ∧
    (ExportInstanceDialog.loadPackIgnore t none).setBlockedCalls = [] ∧
    (ExportInstanceDialog.loadPackIgnore t none).errorsSurfaced = 0 ∧
    (ExportInstanceDialog.loadPackIgnore SeparatorPrefixTree.empty none).tree.blocked = [] :=
  ⟨rfl, rfl, rfl, rfl⟩

/-- C10: a cancelled (empty) picker result makes `doExport` return `false`
immediately: the tree is untouched and the only side effect is having shown
the picker — no icon save, no enumeration, no compression, no error box. -/
theorem C10_cancelled_picker (t : SeparatorPrefixTree) (env : Env)
    (h : env.pickerOutput = []) :
    (ExportInstanceDialog.doExport t env).ok = false ∧
    (ExportInstanceDialog.doExport t env).tree = t ∧
    (ExportInstanceDialog.doExport t env).events = [Event.pickerShown] ∧
    Event.iconSaved ∉ (ExportInstanceDialog.doExport t env).events ∧
    Event.warnShown ∉ (ExportInstanceDialog.doExport t env).events := by
  unfold ExportInstanceDialog.doExport
  rw [if_pos h]
  exact ⟨rfl, rfl, rfl, by simp, by simp⟩

/-- C10 witness: a run whose picker was cancelled. -/
theorem C10_cancelled_picker_witness :
    (ExportInstanceDialog.doExport SeparatorPrefixTree.empty
      ⟨[], some [], true, true⟩).ok = false :=
  (C10_cancelled_picker SeparatorPrefixTree.empty ⟨[], some [], true, true⟩ rfl).1

/-- C3 counterexample: for the blocked-path set obtained by inserting the path
`"a\nb"` — a path containing the newline record delimiter — the save/load
round trip changes `coveredPaths()` membership: `"a\nb"` is a covered path
before the round trip and not after (it is split into `"a"` and `"b"`). -/
theorem C3_roundTrip_counterexample :
    qstr "a\nb" ∈ (SeparatorPrefixTree.empty.insert (qstr "a\nb")).toStringList ∧
    qstr "a\nb" ∉
      (packIgnoreRoundTrip (SeparatorPrefixTree.empty.insert (qstr "a\nb"))).toStringList := by
  decide

/-- C3 (amended): for every well-formed blocked-path set — each blocked path
has at least one segment, segments are free of the separator and of the
newline delimiter, and no blocked path is an initial segment-run of a later
one, as `insert` produces for newline-free paths — writing the ignore set by
joining with `'\n'` and loading it back through `setBlockedPaths` restores the
very same tree, so `coveredPaths()` membership is unchanged. -/
theorem C3_roundTrip_id (t : SeparatorPrefixTree) (h : t.WF) :
    packIgnoreRoundTrip t = t ∧
    ∀ p, p ∈ (packIgnoreRoundTrip t).toStringList ↔ p ∈ t.toStringList := by
  have h1 := roundTrip_eq_of_wf t h
  exact ⟨h1, fun p => by rw [h1]⟩

/-- C3 witness: round trip of a concrete two-path ignore set. -/
theorem C3_roundTrip_id_witness :
    packIgnoreRoundTrip
        ((SeparatorPrefixTree.empty.insert (qstr "build")).insert (qstr "src/gen")) =
      (SeparatorPrefixTree.empty.insert (qstr "build")).insert (qstr "src/gen") :=
  (C3_roundTrip_id ((SeparatorPrefixTree.empty.insert (qstr "build")).insert (qstr "src/gen"))
    (by decide)).1

/-- C6: a failed export — enumeration failure or compression failure — returns
`false`, surfaces exactly one failure message, and leaves the in-memory
blocked-path tree exactly as it was before the attempt. -/
theorem C6_failed_export_atomic (t : SeparatorPrefixTree) (env : Env)
    (hpick : env.pickerOutput ≠ [])
    (hfail : env.enumerated = none ∨ env.compressOk = false) :
    (ExportInstanceDialog.doExport t env).ok = false ∧
    (ExportInstanceDialog.doExport t env).events.countP
      (fun e => decide (e = Event.warnShown)) = 1 ∧
    (ExportInstanceDialog.doExport t env).tree = t := by
  unfold ExportInstanceDialog.doExport
  rw [if_neg hpick]
  cases henum : env.enumerated with
  | none => exact ⟨rfl, by simp [List.countP_cons], rfl⟩
  | some allPaths =>
    have hcomp : env.compressOk = false := by
      rcases hfail with h | h
      · rw [henum] at h
        exact absurd h (by simp)
      · exact h
    rw [hcomp]
    refine ⟨rfl, ?_, rfl⟩
    simp [List.countP_cons]

/-- C6 witness: a concrete run with a failing enumeration. -/
theorem C6_failed_export_atomic_witness :
    (ExportInstanceDialog.doExport SeparatorPrefixTree.empty
      ⟨qstr "o.zip", none, true, true⟩).ok = false :=
  (C6_failed_export_atomic SeparatorPrefixTree.empty ⟨qstr "o.zip", none, true, true⟩
    (by decide) (Or.inl rfl)).1

/-- C7: loading persisted ignore text hands `setBlockedPaths` exactly the
non-empty lines of the file, in order — a sublist of the raw `'\n'` split with
every blank line dropped (including the one a trailing newline produces, as in
`"a\nb\n"`) — and surfaces no error for any file content. -/
theorem C7_blank_lines_dropped (data : QStr) :
    (ExportInstanceDialog.loadPackIgnore SeparatorPrefixTree.empty (some data)).setBlockedCalls
      = [skipEmptyParts (data.splitOn '\n')] ∧
    (skipEmptyParts (data.splitOn '\n')).Sublist (data.splitOn '\n') ∧
    (∀ l, l ∈ skipEmptyParts (data.splitOn '\n') ↔ l ∈ data.splitOn '\n' ∧ l ≠ []) ∧
    (ExportInstanceDialog.loadPackIgnore SeparatorPrefixTree.empty (some data)).errorsSurfaced
      = 0 ∧
    skipEmptyParts ((qstr "a\nb\n").splitOn '\n') = [qstr "a", qstr "b"] := by
  refine ⟨rfl, List.filter_sublist _, ?_, rfl, by decide⟩
  intro l
  simp [skipEmptyParts, List.mem_filter]

/-- C8: when `FS::write` fails, `savePackIgnore` catches the exception, logs a
warning and returns normally; `done` then still proceeds — a non-accept
result completes the dialog with that result, and an accept still attempts
the export (the destination picker is shown). -/
theorem C8_save_failure_nonblocking (t : SeparatorPrefixTree) (env : Env)
    (hw : env.writeOk = false) :
    ExportInstanceDialog.savePackIgnore t env =
      [Event.fsWrite (renderIgnore t) false, Event.warnLogged] ∧
    (∀ result : Int, result ≠ qdialogAccepted →
      Event.dialogDone result ∈ (ExportInstanceDialog.done result t env).events) ∧
    Event.pickerShown ∈ (ExportInstanceDialog.done qdialogAccepted t env).events := by
  have hsave : ExportInstanceDialog.savePackIgnore t env =
      [Event.fsWrite (renderIgnore t) false, Event.warnLogged] := by
    simp [ExportInstanceDialog.savePackIgnore, hw]
  refine ⟨hsave, ?_, ?_⟩
  · intro result hres
    unfold ExportInstanceDialog.done
    rw [if_neg hres]
    simp
  · unfold ExportInstanceDialog.done
    rw [if_pos rfl]
    split <;> simp [pickerShown_mem_doExport t env]

/-- C8 witness: a concrete run whose ignore-file write fails. -/
theorem C8_save_failure_nonblocking_witness :
    ExportInstanceDialog.savePackIgnore SeparatorPrefixTree.empty ⟨[], none, true, false⟩ =
      [Event.fsWrite (renderIgnore SeparatorPrefixTree.empty) false, Event.warnLogged] :=
  (C8_save_failure_nonblocking SeparatorPrefixTree.empty ⟨[], none, true, false⟩ rfl).1

/-- C9: for every dialog outcome — accepted, rejected, or accepted with a
failing export — the very first side effect of `done` is the `.packignore`
write of the current blocked-path serialization, before the result is
inspected. -/
theorem C9_save_happens_first (result : Int) (t : SeparatorPrefixTree) (env : Env) :
    (ExportInstanceDialog.done result t env).events.head? =
      some (Event.fsWrite (renderIgnore t) env.writeOk) := by
  cases hw : env.writeOk <;>
    simp only [ExportInstanceDialog.done, ExportInstanceDialog.savePackIgnore, hw] <;>
    split <;> (try split) <;> simp_all
